import Mathlib

/-!
Verification of the scheduling logic of `src/javascript/app.js`
(`logica_agendamento.js`): appointment storage, validity rules,
the customer form submit handler and the admin calendar queries.
-/

namespace Barbearia

/-!
## Calendar dates

The code builds JavaScript dates with `new Date(dataISO + 'T00:00:00')`.
We model the dates denoted by such strings: the ECMAScript Date Time
String Format accepts the date-only forms `YYYY`, `YYYY-MM` and
`YYYY-MM-DD` in front of a time part, with out-of-range components
(including a day beyond the month's length) yielding an invalid date.
Extended six-digit years are not modelled.
-/

structure DataCivil where
  ano : Nat
  mes : Nat
  dia : Nat
  deriving DecidableEq, Repr

def ehAnoBissexto (ano : Nat) : Bool :=
  (ano % 4 == 0 && ano % 100 != 0) || ano % 400 == 0

def diasNoMes (ano mes : Nat) : Nat :=
  if mes == 2 then (if ehAnoBissexto ano then 29 else 28)
  else if mes == 4 || mes == 6 || mes == 9 || mes == 11 then 30
  else 31

def valorDoDigito (c : Char) : Nat := c.toNat - 48

/-- Model of the platform date parser applied to `dataISO ++ "T00:00:00"`:
the date part must be one of the three ISO date-only forms, with every
component in range. -/
def parseDataISO (s : String) : Option DataCivil :=
  match s.toList with
  | [a1, a2, a3, a4, '-', m1, m2, '-', d1, d2] =>
    if a1.isDigit && a2.isDigit && a3.isDigit && a4.isDigit &&
        m1.isDigit && m2.isDigit && d1.isDigit && d2.isDigit then
      let ano := 1000 * valorDoDigito a1 + 100 * valorDoDigito a2 +
        10 * valorDoDigito a3 + valorDoDigito a4
      let mes := 10 * valorDoDigito m1 + valorDoDigito m2
      let dia := 10 * valorDoDigito d1 + valorDoDigito d2
      if 1 ≤ mes ∧ mes ≤ 12 ∧ 1 ≤ dia ∧ dia ≤ diasNoMes ano mes then
        some ⟨ano, mes, dia⟩
      else none
    else none
  | [a1, a2, a3, a4, '-', m1, m2] =>
    if a1.isDigit && a2.isDigit && a3.isDigit && a4.isDigit &&
        m1.isDigit && m2.isDigit then
      let ano := 1000 * valorDoDigito a1 + 100 * valorDoDigito a2 +
        10 * valorDoDigito a3 + valorDoDigito a4
      let mes := 10 * valorDoDigito m1 + valorDoDigito m2
      if 1 ≤ mes ∧ mes ≤ 12 then some ⟨ano, mes, 1⟩ else none
    else none
  | [a1, a2, a3, a4] =>
    if a1.isDigit && a2.isDigit && a3.isDigit && a4.isDigit then
      some ⟨1000 * valorDoDigito a1 + 100 * valorDoDigito a2 +
        10 * valorDoDigito a3 + valorDoDigito a4, 1, 1⟩
    else none
  | _ => none

/-- Julian day number of a Gregorian calendar date (valid for `ano ≥ 0`). -/
def jdn (d : DataCivil) : Nat :=
  let a := (14 - d.mes) / 12
  let y := d.ano + 4800 - a
  let m := d.mes + 12 * a - 3
  d.dia + (153 * m + 2) / 5 + 365 * y + y / 4 - y / 100 + y / 400 - 32045

/-- Model of JavaScript `Date.prototype.getDay`: 0 = Sunday, ..., 6 = Saturday. -/
def getDay (d : DataCivil) : Nat := (jdn d + 1) % 7

/-- Model of JavaScript `Date.prototype.getMonth`: zero-based month. -/
def getMonth (d : DataCivil) : Int := (d.mes : Int) - 1

/-! ## Configuration constants of `app.js` -/

def CHAVE_ARMAZENAMENTO : String := "agenda_demo_barbearia"

def LISTA_DE_HORARIOS_FIXOS : List String :=
  ["09:00", "10:00", "11:00", "12:00", "13:00", "14:00", "15:00", "16:00", "17:00"]

def MESES_PERMITIDOS : List Int := [9, 10, 11]

def ANO_PERMITIDO : Int := 2025

/-! ## Simple validations -/

/-- `dataEstaDentroDoPeriodoPermitido(dataISO)`: an invalid date gives
`isNaN(d)` true, hence `false`; otherwise year and zero-based month are
checked against `ANO_PERMITIDO` and `MESES_PERMITIDOS`. -/
def dataEstaDentroDoPeriodoPermitido (dataISO : String) : Bool :=
  match parseDataISO dataISO with
  | none => false
  | some d => ((d.ano : Int) == ANO_PERMITIDO) && MESES_PERMITIDOS.contains (getMonth d)

/-- `ehDomingo(dataISO)`: on an invalid date `getDay()` is `NaN` and
`NaN === 0` is false; otherwise compares the weekday with 0 (Sunday). -/
def ehDomingo (dataISO : String) : Bool :=
  match parseDataISO dataISO with
  | none => false
  | some d => getDay d == 0

/-! ## Appointments and the occupancy check -/

structure Agendamento where
  nome : String
  telefone : String
  servico : String
  data : String
  hora : String
  deriving DecidableEq, Repr

/-- `horarioEstaOcupado(dataISO, hora)` over the list read from the store. -/
def horarioEstaOcupado (lista : List Agendamento) (dataISO hora : String) : Bool :=
  lista.any fun item => item.data == dataISO && item.hora == hora

/-! ## Customer form submit handler -/

/-- The field values read from the form (`(el || {}).value || ''` makes a
missing element indistinguishable from an empty field). -/
structure Formulario where
  nome : String
  telefone : String
  servico : String
  data : String
  hora : String
  deriving DecidableEq, Repr

inductive ResultadoSubmit where
  | camposObrigatorios
  | foraDoPeriodo
  | domingo
  | horarioOcupado
  | sucesso
  deriving DecidableEq, Repr

/-- The exact string passed to `alert` in each branch of the submit handler. -/
def mensagemDoResultado : ResultadoSubmit → String
  | .camposObrigatorios => "Preencha todos os campos obrigatórios (nome, telefone, data e hora)."
  | .foraDoPeriodo => "Escolha uma data em Outubro, Novembro ou Dezembro de 2025."
  | .domingo => "Domingos não são permitidos. Escolha outra data."
  | .horarioOcupado => "Esse horário já está ocupado. Escolha outro horário."
  | .sucesso => "Agendamento salvo com sucesso!"

/-- The submit handler of `inicializarFormularioCliente`: the checks in
source order, and on success the push of `novoAgendamento` onto the read
list followed by a save. Returns the alerted outcome and the list the
store holds afterwards. -/
def submeterFormulario (lista : List Agendamento) (f : Formulario) :
    ResultadoSubmit × List Agendamento :=
  if f.nome == "" || f.telefone == "" || f.data == "" || f.hora == "" then
    (.camposObrigatorios, lista)
  else if !dataEstaDentroDoPeriodoPermitido f.data then
    (.foraDoPeriodo, lista)
  else if ehDomingo f.data then
    (.domingo, lista)
  else if horarioEstaOcupado lista f.data f.hora then
    (.horarioOcupado, lista)
  else
    (.sucesso, lista ++ [Agendamento.mk f.nome f.telefone f.servico f.data f.hora])

/-- The store contents after a sequence of form submissions starting from
the empty store (a rejected submission leaves the store untouched). -/
def aplicarSubmissoes (fs : List Formulario) : List Agendamento :=
  fs.foldl (fun lista f => (submeterFormulario lista f).2) []

/-- No two distinct stored appointments share the same (date, slot) pair. -/
def semConflito (lista : List Agendamento) : Prop :=
  lista.Pairwise fun a b => (a.data, a.hora) ≠ (b.data, b.hora)

instance : DecidablePred semConflito := by
  intro lista
  unfold semConflito
  infer_instance

/-! ## Admin calendar -/

/-- `mudarMesAtual(delta)` as a function of the displayed-month state. -/
def mudarMesAtual (mesAtualExibido delta : Int) : Int :=
  let novo := mesAtualExibido + delta
  if MESES_PERMITIDOS.contains novo then novo else mesAtualExibido

/-- JavaScript `Array.prototype.indexOf`: first index of `x`, `-1` if absent. -/
def jsIndexOf (x : String) : List String → Int
  | [] => -1
  | h :: t =>
    if h == x then 0
    else if jsIndexOf x t == -1 then -1 else jsIndexOf x t + 1

/-- The sort key of `mostrarDetalhesDoDia`: the comparator
`indexOf(a.hora) - indexOf(b.hora)`. -/
def chaveDoHorario (a : Agendamento) : Int := jsIndexOf a.hora LISTA_DE_HORARIOS_FIXOS

def ordemDeHorario (a b : Agendamento) : Prop := chaveDoHorario a ≤ chaveDoHorario b

instance : DecidableRel ordemDeHorario := fun _ _ => Int.decLe _ _

instance : IsTotal Agendamento ordemDeHorario := ⟨fun _ _ => Int.le_total _ _⟩

instance : IsTrans Agendamento ordemDeHorario := ⟨fun _ _ _ => Int.le_trans⟩

/-- The day's appointments as `mostrarDetalhesDoDia` lists them: filtered
to the requested date and stably sorted by the comparator (JavaScript
`sort` is a stable sort consistent with the comparator). -/
def detalhesDoDia (lista : List Agendamento) (dataISO : String) : List Agendamento :=
  List.insertionSort ordemDeHorario (lista.filter fun x => x.data == dataISO)

inductive SaidaDoDia where
  | semAgendamentos
  | tabela (linhas : List (String × String × String))
  deriving DecidableEq, Repr

/-- What `mostrarDetalhesDoDia` renders: the empty-state message, or the
table rows (hora, nome, servico) in sorted order. -/
def mostrarDetalhesDoDia (lista : List Agendamento) (dataISO : String) : SaidaDoDia :=
  let l := detalhesDoDia lista dataISO
  if l.isEmpty then .semAgendamentos
  else .tabela (l.map fun item => (item.hora, item.nome, item.servico))

/-!
## JSON model for the store

`pegarListaDeAgendamentos` runs `JSON.parse(localStorage.getItem(k) || '[]')`
inside try/catch, and `salvarListaDeAgendamentos` runs
`localStorage.setItem(k, JSON.stringify(lista))`. We model JSON values
and the platform parser and serializer on the fragment the store can
hold: numbers are modelled as integers (no fraction or exponent), the
`\uXXXX` string escape and duplicate-key collapsing are not modelled.
-/

inductive Json where
  | null
  | bool (b : Bool)
  | num (n : Int)
  | str (s : String)
  | arr (elems : List Json)
  | obj (membros : List (String × Json))

def chaveAbre : Char := Char.ofNat 123

def chaveFecha : Char := Char.ofNat 125

def escaparChar (c : Char) : List Char :=
  if c = '"' then ['\\', '"']
  else if c = '\\' then ['\\', '\\']
  else if c = '\n' then ['\\', 'n']
  else if c = '\t' then ['\\', 't']
  else if c = '\r' then ['\\', 'r']
  else [c]

def escaparLista : List Char → List Char
  | [] => []
  | c :: resto => escaparChar c ++ escaparLista resto

def codificarString (s : String) : List Char :=
  '"' :: (escaparLista s.toList ++ ['"'])

mutual

def stringifyJson : Json → List Char
  | .null => "null".toList
  | .bool b => if b then "true".toList else "false".toList
  | .num n => (toString n).toList
  | .str s => codificarString s
  | .arr elems => '[' :: (stringifyElems elems ++ [']'])
  | .obj membros => chaveAbre :: (stringifyMembros membros ++ [chaveFecha])

def stringifyElems : List Json → List Char
  | [] => []
  | [j] => stringifyJson j
  | j :: j2 :: resto => stringifyJson j ++ (',' :: stringifyElems (j2 :: resto))

def stringifyMembros : List (String × Json) → List Char
  | [] => []
  | [(k, j)] => codificarString k ++ (':' :: stringifyJson j)
  | (k, j) :: m2 :: resto =>
    codificarString k ++ (':' :: (stringifyJson j ++ (',' :: stringifyMembros (m2 :: resto))))

end

def espacoJson (c : Char) : Bool :=
  ([' ', '\t', '\n', '\r'] : List Char).contains c

def skipWs : List Char → List Char
  | [] => []
  | c :: cs => if espacoJson c then skipWs cs else c :: cs

def desescapar (c : Char) : Option Char :=
  if c = '"' then some '"'
  else if c = '\\' then some '\\'
  else if c = '/' then some '/'
  else if c = 'n' then some '\n'
  else if c = 't' then some '\t'
  else if c = 'r' then some '\r'
  else if c = 'b' then some (Char.ofNat 8)
  else if c = 'f' then some (Char.ofNat 12)
  else none

def parseCorpoDeString : List Char → Option (List Char × List Char)
  | [] => none
  | c :: cs =>
    if c = '"' then some ([], cs)
    else if c = '\\' then
      match cs with
      | [] => none
      | e :: cs2 =>
        match desescapar e with
        | none => none
        | some u =>
          match parseCorpoDeString cs2 with
          | none => none
          | some (corpo, resto) => some (u :: corpo, resto)
    else if c.toNat < 32 then none
    else
      match parseCorpoDeString cs with
      | none => none
      | some (corpo, resto) => some (c :: corpo, resto)

def pegarDigitos : List Char → List Char × List Char
  | [] => ([], [])
  | c :: cs =>
    if c.isDigit then (c :: (pegarDigitos cs).1, (pegarDigitos cs).2)
    else ([], c :: cs)

def valorDosDigitos (ds : List Char) : Nat :=
  ds.foldl (fun acc c => 10 * acc + valorDoDigito c) 0

def parseNumero (cs : List Char) : Option (Int × List Char) :=
  match cs with
  | '-' :: resto =>
    match pegarDigitos resto with
    | ([], _) => none
    | (ds, r) =>
      if 1 < ds.length ∧ ds.head? = some '0' then none
      else some (-(valorDosDigitos ds : Int), r)
  | _ =>
    match pegarDigitos cs with
    | ([], _) => none
    | (ds, r) =>
      if 1 < ds.length ∧ ds.head? = some '0' then none
      else some ((valorDosDigitos ds : Int), r)

def comecaCom : List Char → List Char → Option (List Char)
  | [], cs => some cs
  | p :: ps, c :: cs => if c = p then comecaCom ps cs else none
  | _ :: _, [] => none

inductive ModoParse where
  | valor
  | elems
  | membros

/-- The recursive core of the model of `JSON.parse`. The fuel only bounds
recursion depth; `jsonParse` supplies more than any input can use. In
mode `elems` the result is always `.arr` of the element list parsed up to
the closing bracket; in mode `membros` always `.obj` of the members up to
the closing brace. -/
def parseGeral : Nat → ModoParse → List Char → Option (Json × List Char)
  | 0, _, _ => none
  | fuel + 1, .valor, cs =>
    match skipWs cs with
    | [] => none
    | c :: resto =>
      if c = '"' then
        match parseCorpoDeString resto with
        | none => none
        | some (corpo, r) => some (.str (String.mk corpo), r)
      else if c = 't' then
        match comecaCom ['r', 'u', 'e'] resto with
        | none => none
        | some r => some (.bool true, r)
      else if c = 'f' then
        match comecaCom ['a', 'l', 's', 'e'] resto with
        | none => none
        | some r => some (.bool false, r)
      else if c = 'n' then
        match comecaCom ['u', 'l', 'l'] resto with
        | none => none
        | some r => some (.null, r)
      else if c = '[' then
        match skipWs resto with
        | [] => none
        | c2 :: r2 =>
          if c2 = ']' then some (.arr [], r2)
          else
            match parseGeral fuel .elems (c2 :: r2) with
            | some (.arr js, r3) => some (.arr js, r3)
            | _ => none
      else if c = chaveAbre then
        match skipWs resto with
        | [] => none
        | c2 :: r2 =>
          if c2 = chaveFecha then some (.obj [], r2)
          else
            match parseGeral fuel .membros (c2 :: r2) with
            | some (.obj ms, r3) => some (.obj ms, r3)
            | _ => none
      else
        match parseNumero (c :: resto) with
        | none => none
        | some (n, r) => some (.num n, r)
  | fuel + 1, .elems, cs =>
    match parseGeral fuel .valor cs with
    | none => none
    | some (j, resto) =>
      match skipWs resto with
      | [] => none
      | c :: r =>
        if c = ']' then some (.arr [j], r)
        else if c = ',' then
          match parseGeral fuel .elems r with
          | some (.arr js, r2) => some (.arr (j :: js), r2)
          | _ => none
        else none
  | fuel + 1, .membros, cs =>
    match skipWs cs with
    | [] => none
    | c :: resto =>
      if c = '"' then
        match parseCorpoDeString resto with
        | none => none
        | some (chave, r1) =>
          match skipWs r1 with
          | [] => none
          | c2 :: r2 =>
            if c2 = ':' then
              match parseGeral fuel .valor r2 with
              | none => none
              | some (j, r3) =>
                match skipWs r3 with
                | [] => none
                | c3 :: r4 =>
                  if c3 = chaveFecha then some (.obj [(String.mk chave, j)], r4)
                  else if c3 = ',' then
                    match parseGeral fuel .membros r4 with
                    | some (.obj ms, r5) => some (.obj ((String.mk chave, j) :: ms), r5)
                    | _ => none
                  else none
            else none
      else none

/-- Model of `JSON.parse`: a value followed by only whitespace; anything
else throws, which the model reports as `none`. -/
def jsonParse (s : String) : Option Json :=
  match parseGeral (2 * s.toList.length + 4) .valor s.toList with
  | none => none
  | some (j, resto) => if skipWs resto = [] then some j else none

/-- Model of `JSON.stringify` on the modelled value fragment. -/
def jsonStringify (j : Json) : String := String.mk (stringifyJson j)

/-- `localStorage.getItem(CHAVE_ARMAZENAMENTO) || '[]'`: both `null`
(key absent) and the empty string are falsy in JavaScript. -/
def valorOuPadrao : Option String → String
  | none => "[]"
  | some s => if s == "" then "[]" else s

/-- `pegarListaDeAgendamentos()` as a function of the store content:
parse the stored text and return the parsed value as is; return the
empty array when `JSON.parse` throws (the catch branch). -/
def pegarListaDeAgendamentos (armazenado : Option String) : Json :=
  match jsonParse (valorOuPadrao armazenado) with
  | some j => j
  | none => .arr []

/-- `salvarListaDeAgendamentos(lista)`: the store content it writes. -/
def salvarListaDeAgendamentos (lista : Json) : Option String :=
  some (jsonStringify lista)

/-- `salvarListaDeAgendamentos(pegarListaDeAgendamentos())` as a
function on the store content. -/
def salvarAposCarregar (armazenado : Option String) : Option String :=
  salvarListaDeAgendamentos (pegarListaDeAgendamentos armazenado)

def Json.ehArr : Json → Bool
  | .arr _ => true
  | _ => false

/-- The JSON value `JSON.stringify` reads off an appointment list (object
keys in the construction order of `novoAgendamento`). -/
def codificarAgendamento (a : Agendamento) : Json :=
  .obj [("nome", .str a.nome), ("telefone", .str a.telefone),
    ("servico", .str a.servico), ("data", .str a.data), ("hora", .str a.hora)]

def codificarLista (lista : List Agendamento) : Json :=
  .arr (lista.map codificarAgendamento)

/-- Characters serialized verbatim: not a quote, not a backslash, not a
control character. -/
def charSimples (c : Char) : Prop := c ≠ '"' ∧ c ≠ '\\' ∧ 32 ≤ c.toNat

instance : DecidablePred charSimples := fun c => by
  unfold charSimples
  infer_instance

def stringSimples (s : String) : Prop := ∀ c ∈ s.toList, charSimples c

instance : DecidablePred stringSimples := fun s => by
  unfold stringSimples
  infer_instance

def camposSimples (a : Agendamento) : Prop :=
  stringSimples a.nome ∧ stringSimples a.telefone ∧ stringSimples a.servico ∧
    stringSimples a.data ∧ stringSimples a.hora

instance : DecidablePred camposSimples := fun a => by
  unfold camposSimples
  infer_instance

/-! ## Helper lemmas -/

theorem jsIndexOf_spec (x : String) (l : List String) :
    (jsIndexOf x l = -1 ∧ x ∉ l) ∨ (0 ≤ jsIndexOf x l ∧ x ∈ l) := by
  induction l with
  | nil => exact Or.inl ⟨rfl, by simp⟩
  | cons h t ih =>
    by_cases hx : h = x
    · subst hx
      exact Or.inr ⟨by simp [jsIndexOf], by simp⟩
    · rcases ih with ⟨h1, h2⟩ | ⟨h1, h2⟩
      · refine Or.inl ⟨by simp [jsIndexOf, hx, h1], ?_⟩
        simp only [List.mem_cons, not_or]
        exact ⟨fun he => hx he.symm, h2⟩
      · refine Or.inr ⟨?_, by simp [h2]⟩
        have hne : jsIndexOf x t ≠ -1 := by omega
        simp only [jsIndexOf, beq_iff_eq, hx, if_false, hne]
        omega

theorem jsIndexOf_nonneg_iff (x : String) (l : List String) :
    0 ≤ jsIndexOf x l ↔ x ∈ l := by
  rcases jsIndexOf_spec x l with ⟨h1, h2⟩ | ⟨h1, h2⟩
  · constructor
    · intro h; omega
    · intro h; exact absurd h h2
  · exact ⟨fun _ => h2, fun _ => h1⟩

theorem horarioEstaOcupado_iff (lista : List Agendamento) (d h : String) :
    horarioEstaOcupado lista d h = true ↔ ∃ a ∈ lista, a.data = d ∧ a.hora = h := by
  simp [horarioEstaOcupado, List.any_eq_true]

theorem submeterFormulario_preserva (lista : List Agendamento) (f : Formulario)
    (hc : semConflito lista) : semConflito (submeterFormulario lista f).2 := by
  unfold submeterFormulario
  split_ifs with h1 h2 h3 h4
  · exact hc
  · exact hc
  · exact hc
  · exact hc
  · unfold semConflito at hc ⊢
    simp only [List.pairwise_append, List.pairwise_cons, List.Pairwise.nil,
      List.mem_singleton]
    refine ⟨hc, ⟨by simp, trivial⟩, ?_⟩
    intro a ha b hb
    subst hb
    rw [horarioEstaOcupado_iff] at h4
    push_neg at h4
    intro heq
    have h5 := h4 a ha
    have hdata : a.data = f.data := congrArg Prod.fst heq
    have hhora : a.hora = f.hora := congrArg Prod.snd heq
    exact absurd hhora (h5 hdata)

theorem aplicarSubmissoes_semConflito (fs : List Formulario) :
    semConflito (aplicarSubmissoes fs) := by
  unfold aplicarSubmissoes
  have geral : ∀ (gs : List Formulario) (lista : List Agendamento), semConflito lista →
      semConflito (gs.foldl (fun lista f => (submeterFormulario lista f).2) lista) := by
    intro gs
    induction gs with
    | nil => exact fun lista h => h
    | cons f gs ih =>
      intro lista h
      exact ih _ (submeterFormulario_preserva lista f h)
  exact geral fs [] List.Pairwise.nil

/-! ## JSON round-trip lemmas -/

theorem toList_mk (cs : List Char) : (String.mk cs).toList = cs := rfl

theorem mk_toList (s : String) : String.mk s.toList = s := by
  cases s
  rfl

theorem skipWs_cons_of_nao_espaco (c : Char) (cs : List Char) (h : espacoJson c = false) :
    skipWs (c :: cs) = c :: cs := by
  simp [skipWs, h]

theorem escaparLista_simples (l : List Char) (h : ∀ c ∈ l, charSimples c) :
    escaparLista l = l := by
  induction l with
  | nil => rfl
  | cons c cs ih =>
    obtain ⟨h1, h2, h3⟩ := h c (List.mem_cons_self c cs)
    have hn : c ≠ '\n' := fun he => by rw [he] at h3; exact absurd h3 (by decide)
    have ht : c ≠ '\t' := fun he => by rw [he] at h3; exact absurd h3 (by decide)
    have hr : c ≠ '\r' := fun he => by rw [he] at h3; exact absurd h3 (by decide)
    have hch : escaparChar c = [c] := by
      simp [escaparChar, h1, h2, hn, ht, hr]
    simp only [escaparLista, hch, List.singleton_append, List.cons.injEq, true_and]
    exact ih fun d hd => h d (List.mem_cons_of_mem c hd)

theorem skipWs_aspas (cs : List Char) : skipWs ('"' :: cs) = '"' :: cs :=
  skipWs_cons_of_nao_espaco _ _ (by decide)

theorem skipWs_doisPontos (cs : List Char) : skipWs (':' :: cs) = ':' :: cs :=
  skipWs_cons_of_nao_espaco _ _ (by decide)

theorem skipWs_virgula (cs : List Char) : skipWs (',' :: cs) = ',' :: cs :=
  skipWs_cons_of_nao_espaco _ _ (by decide)

theorem skipWs_abreColchete (cs : List Char) : skipWs ('[' :: cs) = '[' :: cs :=
  skipWs_cons_of_nao_espaco _ _ (by decide)

theorem skipWs_fechaColchete (cs : List Char) : skipWs (']' :: cs) = ']' :: cs :=
  skipWs_cons_of_nao_espaco _ _ (by decide)

theorem skipWs_chaveAbre (cs : List Char) : skipWs (chaveAbre :: cs) = chaveAbre :: cs :=
  skipWs_cons_of_nao_espaco _ _ (by decide)

theorem skipWs_chaveFecha (cs : List Char) : skipWs (chaveFecha :: cs) = chaveFecha :: cs :=
  skipWs_cons_of_nao_espaco _ _ (by decide)

theorem parseCorpoDeString_simples (l : List Char) (h : ∀ c ∈ l, charSimples c)
    (resto : List Char) :
    parseCorpoDeString (l ++ ('"' :: resto)) = some (l, resto) := by
  induction l with
  | nil =>
    rw [List.nil_append]
    unfold parseCorpoDeString
    rw [if_pos rfl]
  | cons c cs ih =>
    obtain ⟨h1, h2, h3⟩ := h c (List.mem_cons_self c cs)
    have h4 : ¬(c.toNat < 32) := by omega
    rw [List.cons_append]
    unfold parseCorpoDeString
    rw [if_neg h1, if_neg h2, if_neg h4, ih fun d hd => h d (List.mem_cons_of_mem c hd)]

theorem parseGeral_string_simples (s : String) (h : stringSimples s) (fuel : Nat)
    (hfuel : 1 ≤ fuel) (resto : List Char) :
    parseGeral fuel ModoParse.valor (codificarString s ++ resto) =
      some (Json.str s, resto) := by
  obtain ⟨f, rfl⟩ : ∃ f, fuel = f + 1 := ⟨fuel - 1, by omega⟩
  have hesc : escaparLista s.toList = s.toList := escaparLista_simples s.toList h
  have hcorpo := parseCorpoDeString_simples s.toList h
  simp only [codificarString, hesc, List.cons_append, List.append_assoc,
    List.singleton_append, List.nil_append]
  simp only [parseGeral]
  rw [skipWs_aspas]
  simp only [reduceIte, hcorpo, mk_toList]

theorem stringifyMembros_head (k : String) (j : Json) (more : List (String × Json)) :
    ∃ t, stringifyMembros ((k, j) :: more) = '"' :: t := by
  cases more with
  | nil =>
    exact ⟨escaparLista k.toList ++ ['"'] ++ (':' :: stringifyJson j), by
      simp [stringifyMembros, codificarString]⟩
  | cons m2 resto =>
    exact ⟨escaparLista k.toList ++ ['"'] ++
      (':' :: (stringifyJson j ++ (',' :: stringifyMembros (m2 :: resto)))), by
      simp [stringifyMembros, codificarString]⟩

theorem parseGeral_membros_simples :
    ∀ (ms : List (String × String)), ms ≠ [] →
    (∀ p ∈ ms, stringSimples p.1 ∧ stringSimples p.2) →
    ∀ (fuel : Nat), ms.length + 1 ≤ fuel → ∀ (resto : List Char),
    parseGeral fuel ModoParse.membros
      (stringifyMembros (ms.map fun p => (p.1, Json.str p.2)) ++ (chaveFecha :: resto)) =
    some (Json.obj (ms.map fun p => (p.1, Json.str p.2)), resto) := by
  intro ms
  induction ms with
  | nil => exact fun hne => absurd rfl hne
  | cons p ms2 ih =>
    intro _hne h fuel hfuel resto
    obtain ⟨k, v⟩ := p
    obtain ⟨hk, hv⟩ := h (k, v) (List.mem_cons_self _ _)
    simp only [List.length_cons] at hfuel
    obtain ⟨f, rfl⟩ : ∃ f, fuel = f + 1 := ⟨fuel - 1, by omega⟩
    have hesc : escaparLista k.toList = k.toList := escaparLista_simples k.toList hk
    have hescv : escaparLista v.toList = v.toList := escaparLista_simples v.toList hv
    have hcorpo := parseCorpoDeString_simples k.toList hk
    cases ms2 with
    | nil =>
      have hval := parseGeral_string_simples v hv f (by omega) (chaveFecha :: resto)
      simp only [codificarString, hescv, List.cons_append, List.append_assoc,
        List.singleton_append, List.nil_append] at hval
      simp only [List.map_cons, List.map_nil, stringifyMembros, stringifyJson,
        codificarString, hesc, hescv, List.cons_append, List.append_assoc,
        List.singleton_append, List.nil_append]
      simp only [parseGeral]
      simp only [skipWs_aspas, skipWs_doisPontos, skipWs_chaveFecha, reduceIte,
        hcorpo, hval, mk_toList]
    | cons q ms3 =>
      simp only [List.length_cons] at hfuel
      have ihq := ih (by simp)
        (fun r hr => h r (List.mem_cons_of_mem _ hr))
        f (by simp only [List.length_cons]; omega) resto
      simp only [List.map_cons] at ihq
      have hval := parseGeral_string_simples v hv f (by omega)
        (',' :: (stringifyMembros ((q.1, Json.str q.2) ::
          (ms3.map fun p => (p.1, Json.str p.2))) ++ (chaveFecha :: resto)))
      simp only [codificarString, hescv, List.cons_append, List.append_assoc,
        List.singleton_append, List.nil_append] at hval
      simp only [List.map_cons, stringifyMembros, stringifyJson, codificarString,
        hesc, hescv, List.cons_append, List.append_assoc, List.singleton_append,
        List.nil_append]
      simp only [parseGeral]
      simp only [skipWs_aspas, skipWs_doisPontos, skipWs_virgula, skipWs_chaveFecha,
        reduceIte, hcorpo, hval, ihq, mk_toList]
      rw [if_neg (by decide)]

theorem parseGeral_objeto (a : Agendamento) (h : camposSimples a) (fuel : Nat)
    (hfuel : 7 ≤ fuel) (resto : List Char) :
    parseGeral fuel ModoParse.valor (stringifyJson (codificarAgendamento a) ++ resto) =
      some (codificarAgendamento a, resto) := by
  obtain ⟨h1, h2, h3, h4, h5⟩ := h
  obtain ⟨f, rfl⟩ : ∃ f, fuel = f + 1 := ⟨fuel - 1, by omega⟩
  have hmem := parseGeral_membros_simples
    [("nome", a.nome), ("telefone", a.telefone), ("servico", a.servico),
      ("data", a.data), ("hora", a.hora)]
    (by simp)
    (by
      intro p hp
      simp only [List.mem_cons, List.not_mem_nil, or_false] at hp
      rcases hp with hp | hp | hp | hp | hp <;> subst hp
      · exact ⟨(by decide : stringSimples "nome"), h1⟩
      · exact ⟨(by decide : stringSimples "telefone"), h2⟩
      · exact ⟨(by decide : stringSimples "servico"), h3⟩
      · exact ⟨(by decide : stringSimples "data"), h4⟩
      · exact ⟨(by decide : stringSimples "hora"), h5⟩)
    f (by simp only [List.length_cons, List.length_nil]; omega) resto
  simp only [List.map_cons, List.map_nil] at hmem
  obtain ⟨t, ht⟩ := stringifyMembros_head "nome" (Json.str a.nome)
    [("telefone", Json.str a.telefone), ("servico", Json.str a.servico),
      ("data", Json.str a.data), ("hora", Json.str a.hora)]
  rw [ht] at hmem
  simp only [List.cons_append] at hmem
  simp only [codificarAgendamento, stringifyJson, List.cons_append, List.append_assoc,
    List.singleton_append, List.nil_append]
  simp only [parseGeral]
  simp only [skipWs_chaveAbre]
  rw [if_neg (by decide), if_neg (by decide), if_neg (by decide), if_neg (by decide),
    if_neg (by decide), if_pos True.intro]
  simp only [ht, List.cons_append, skipWs_aspas]
  rw [if_neg (by decide)]
  rw [hmem]

theorem stringifyElems_codificar_head (a : Agendamento) (l2 : List Agendamento) :
    ∃ t, stringifyElems ((a :: l2).map codificarAgendamento) = chaveAbre :: t := by
  cases l2 with
  | nil =>
    exact ⟨stringifyMembros [("nome", Json.str a.nome), ("telefone", Json.str a.telefone),
      ("servico", Json.str a.servico), ("data", Json.str a.data),
      ("hora", Json.str a.hora)] ++ [chaveFecha], by
      simp [stringifyElems, stringifyJson, codificarAgendamento]⟩
  | cons b l3 =>
    exact ⟨(stringifyMembros [("nome", Json.str a.nome), ("telefone", Json.str a.telefone),
      ("servico", Json.str a.servico), ("data", Json.str a.data),
      ("hora", Json.str a.hora)] ++ [chaveFecha]) ++
        (',' :: stringifyElems ((b :: l3).map codificarAgendamento)), by
      simp [stringifyElems, stringifyJson, codificarAgendamento, List.cons_append,
        List.append_assoc]⟩

theorem comprimento_elems_codificar :
    ∀ (l : List Agendamento), l ≠ [] →
    l.length + 1 ≤ (stringifyElems (l.map codificarAgendamento)).length := by
  intro l
  induction l with
  | nil => exact fun hne => absurd rfl hne
  | cons a l2 ih =>
    intro _hne
    have ha : 2 ≤ (stringifyJson (codificarAgendamento a)).length := by
      simp [stringifyJson, codificarAgendamento]
    cases l2 with
    | nil =>
      simp only [List.map_cons, List.map_nil, stringifyElems, List.length_cons,
        List.length_nil]
      omega
    | cons b l3 =>
      have ihb := ih (by simp)
      simp only [List.length_cons] at ihb ⊢
      simp only [List.map_cons, stringifyElems, List.length_append, List.length_cons]
      simp only [List.map_cons] at ihb
      omega

theorem parseGeral_elems_codificar :
    ∀ (l : List Agendamento), l ≠ [] → (∀ a ∈ l, camposSimples a) →
    ∀ (fuel : Nat), l.length + 8 ≤ fuel → ∀ (resto : List Char),
    parseGeral fuel ModoParse.elems
      (stringifyElems (l.map codificarAgendamento) ++ (']' :: resto)) =
    some (Json.arr (l.map codificarAgendamento), resto) := by
  intro l
  induction l with
  | nil => exact fun hne => absurd rfl hne
  | cons a l2 ih =>
    intro _hne h fuel hfuel resto
    simp only [List.length_cons] at hfuel
    obtain ⟨f, rfl⟩ : ∃ f, fuel = f + 1 := ⟨fuel - 1, by omega⟩
    have hobj := parseGeral_objeto a (h a (List.mem_cons_self _ _)) f (by omega)
    cases l2 with
    | nil =>
      simp only [List.map_cons, List.map_nil, stringifyElems]
      simp only [parseGeral]
      simp only [hobj]
      simp only [skipWs_fechaColchete]
      rw [if_pos (by trivial)]
    | cons b l3 =>
      simp only [List.length_cons] at hfuel
      have ihb := ih (by simp) (fun x hx => h x (List.mem_cons_of_mem _ hx)) f
        (by simp only [List.length_cons]; omega) resto
      simp only [List.map_cons] at ihb ⊢
      simp only [stringifyElems, List.cons_append, List.append_assoc, List.nil_append]
      simp only [parseGeral]
      simp only [hobj]
      simp only [skipWs_virgula]
      rw [if_neg (by decide), if_pos (by trivial)]
      rw [ihb]

theorem jsonParse_stringify_codificar (l : List Agendamento)
    (h : ∀ a ∈ l, camposSimples a) :
    jsonParse (jsonStringify (codificarLista l)) = some (codificarLista l) := by
  cases l with
  | nil => rfl
  | cons a l2 =>
    have hb := comprimento_elems_codificar (a :: l2) (by simp)
    obtain ⟨t, ht⟩ := stringifyElems_codificar_head a l2
    unfold jsonParse jsonStringify codificarLista
    rw [toList_mk]
    simp only [stringifyJson]
    obtain ⟨F, hF, hFb⟩ : ∃ F,
        2 * ('[' :: (stringifyElems ((a :: l2).map codificarAgendamento) ++ [']'])).length
          + 4 = F + 1 ∧ (a :: l2).length + 8 ≤ F := by
      refine ⟨2 * ('[' :: (stringifyElems ((a :: l2).map codificarAgendamento) ++
        [']'])).length + 3, by omega, ?_⟩
      simp only [List.length_cons, List.length_append, List.length_nil] at hb ⊢
      omega
    rw [hF]
    have helems := parseGeral_elems_codificar (a :: l2) (by simp) h F hFb []
    rw [ht] at helems
    simp only [List.cons_append] at helems
    simp only [parseGeral]
    simp only [skipWs_abreColchete, reduceIte]
    simp only [ht, List.cons_append, skipWs_chaveAbre]
    have hne : ¬(chaveAbre = ']') := by decide
    rw [if_neg hne]
    rw [helems]
    simp [skipWs]

/-! ## Claim theorems -/

/-- C1: starting from the empty store, after any sequence of form
submissions no two distinct stored appointments share a (data, hora)
pair, and the submit handler never succeeds on a submission whose
(data, hora) pair equals that of an already-stored appointment. -/
theorem claim_C1 :
    (∀ fs : List Formulario, semConflito (aplicarSubmissoes fs)) ∧
    ∀ (lista : List Agendamento) (f : Formulario),
      (∃ a ∈ lista, a.data = f.data ∧ a.hora = f.hora) →
      (submeterFormulario lista f).1 ≠ ResultadoSubmit.sucesso := by
  refine ⟨aplicarSubmissoes_semConflito, ?_⟩
  intro lista f hex
  unfold submeterFormulario
  split_ifs with h1 h2 h3 h4
  · simp
  · simp
  · simp
  · simp
  · exact absurd ((horarioEstaOcupado_iff lista f.data f.hora).mpr hex) h4

/-- Witness for C1: a second booking of the already-taken slot
2025-10-06 09:00 is not a success. -/
theorem claim_C1_witness :
    (submeterFormulario [Agendamento.mk "Ana" "111" "Corte" "2025-10-06" "09:00"]
      (Formulario.mk "Bia" "222" "" "2025-10-06" "09:00")).1 ≠ ResultadoSubmit.sucesso :=
  claim_C1.2 _ _ ⟨Agendamento.mk "Ana" "111" "Corte" "2025-10-06" "09:00",
    List.mem_singleton.mpr rfl, rfl, rfl⟩

/-- C2: `dataEstaDentroDoPeriodoPermitido` is true exactly on the strings
that denote a valid date in October, November or December of 2025; every
other input, including strings that do not parse to a valid date, gives
false. -/
theorem claim_C2 (s : String) :
    dataEstaDentroDoPeriodoPermitido s = true ↔
    ∃ d, parseDataISO s = some d ∧ d.ano = 2025 ∧
      (d.mes = 10 ∨ d.mes = 11 ∨ d.mes = 12) := by
  unfold dataEstaDentroDoPeriodoPermitido
  cases hp : parseDataISO s with
  | none => simp
  | some d =>
    simp only [ANO_PERMITIDO, MESES_PERMITIDOS, getMonth, Option.some.injEq,
      Bool.and_eq_true, beq_iff_eq]
    constructor
    · rintro ⟨hano, hmes⟩
      simp only [List.contains] at hmes
      simp only [List.elem_eq_mem, List.mem_cons, List.not_mem_nil, or_false,
        decide_eq_true_eq] at hmes
      exact ⟨d, rfl, by omega, by omega⟩
    · rintro ⟨d2, hd2, hano, hmes⟩
      cases hd2
      refine ⟨by omega, ?_⟩
      simp only [List.contains, List.elem_eq_mem, List.mem_cons, List.not_mem_nil,
        or_false, decide_eq_true_eq]
      omega

/-- C5: `ehDomingo` is true exactly on the strings that denote a valid
date whose weekday is Sunday, with no restriction on month or year. -/
theorem claim_C5 (s : String) :
    ehDomingo s = true ↔ ∃ d, parseDataISO s = some d ∧ getDay d = 0 := by
  unfold ehDomingo
  cases hp : parseDataISO s with
  | none => simp
  | some d => simp

/-- C4: the submit handler runs the required-field check, then the
allowed-period check, then the Sunday check, then the occupancy check, in
that order: the first failing check determines the outcome; the five
alert messages are pairwise distinct; and on every non-success outcome
the stored list is returned unchanged. -/
theorem claim_C4 (lista : List Agendamento) (f : Formulario) :
    ((f.nome = "" ∨ f.telefone = "" ∨ f.data = "" ∨ f.hora = "") →
      submeterFormulario lista f = (.camposObrigatorios, lista)) ∧
    (f.nome ≠ "" → f.telefone ≠ "" → f.data ≠ "" → f.hora ≠ "" →
      dataEstaDentroDoPeriodoPermitido f.data = false →
      submeterFormulario lista f = (.foraDoPeriodo, lista)) ∧
    (f.nome ≠ "" → f.telefone ≠ "" → f.data ≠ "" → f.hora ≠ "" →
      dataEstaDentroDoPeriodoPermitido f.data = true → ehDomingo f.data = true →
      submeterFormulario lista f = (.domingo, lista)) ∧
    (f.nome ≠ "" → f.telefone ≠ "" → f.data ≠ "" → f.hora ≠ "" →
      dataEstaDentroDoPeriodoPermitido f.data = true → ehDomingo f.data = false →
      horarioEstaOcupado lista f.data f.hora = true →
      submeterFormulario lista f = (.horarioOcupado, lista)) ∧
    ((submeterFormulario lista f).1 ≠ ResultadoSubmit.sucesso →
      (submeterFormulario lista f).2 = lista) ∧
    List.Pairwise (fun r1 r2 => mensagemDoResultado r1 ≠ mensagemDoResultado r2)
      [ResultadoSubmit.camposObrigatorios, ResultadoSubmit.foraDoPeriodo,
        ResultadoSubmit.domingo, ResultadoSubmit.horarioOcupado, ResultadoSubmit.sucesso] := by
  refine ⟨?_, ?_, ?_, ?_, ?_, by decide⟩
  · intro h
    unfold submeterFormulario
    have : (f.nome == "" || f.telefone == "" || f.data == "" || f.hora == "") = true := by
      simp only [Bool.or_eq_true, beq_iff_eq]
      tauto
    simp [this]
  · intro h1 h2 h3 h4 h5
    unfold submeterFormulario
    simp [h1, h2, h3, h4, h5]
  · intro h1 h2 h3 h4 h5 h6
    unfold submeterFormulario
    simp [h1, h2, h3, h4, h5, h6]
  · intro h1 h2 h3 h4 h5 h6 h7
    unfold submeterFormulario
    simp [h1, h2, h3, h4, h5, h6, h7]
  · unfold submeterFormulario
    split_ifs with h1 h2 h3 h4 <;> intro h
    · rfl
    · rfl
    · rfl
    · rfl
    · exact absurd rfl h

/-- Witness for C4: an all-empty form is rejected with the
required-fields message and the empty store is unchanged. -/
theorem claim_C4_witness :
    submeterFormulario [] (Formulario.mk "" "" "" "" "") =
      (ResultadoSubmit.camposObrigatorios, []) :=
  (claim_C4 [] (Formulario.mk "" "" "" "" "")).1 (Or.inl rfl)

/-- C6: with delta = +1 or -1, `mudarMesAtual` moves to the adjacent
month exactly when that month is one of the allowed months 9, 10, 11,
and otherwise leaves the state unchanged; in particular +1 from 9 gives
10 and +1 from 11 is a no-op. -/
theorem claim_C6 (mes delta : Int) (_hdelta : delta = 1 ∨ delta = -1) :
    ((mes + delta = 9 ∨ mes + delta = 10 ∨ mes + delta = 11) →
      mudarMesAtual mes delta = mes + delta) ∧
    (¬(mes + delta = 9 ∨ mes + delta = 10 ∨ mes + delta = 11) →
      mudarMesAtual mes delta = mes) ∧
    mudarMesAtual 9 1 = 10 ∧ mudarMesAtual 11 1 = 11 := by
  refine ⟨?_, ?_, by decide, by decide⟩
  · intro h
    have hc : MESES_PERMITIDOS.contains (mes + delta) = true := by
      simp only [MESES_PERMITIDOS, List.contains, List.elem_eq_mem, List.mem_cons,
        List.not_mem_nil, or_false, decide_eq_true_eq]
      tauto
    simp only [mudarMesAtual]
    rw [if_pos hc]
  · intro h
    have hc : mes + delta ∉ MESES_PERMITIDOS := by
      simp only [MESES_PERMITIDOS, List.mem_cons, List.not_mem_nil, or_false]
      tauto
    simp only [mudarMesAtual]
    rw [if_neg (by simpa using hc)]

/-- Witness for C6: both scenario facts at delta = +1. -/
theorem claim_C6_witness : mudarMesAtual 9 1 = 10 ∧ mudarMesAtual 11 1 = 11 :=
  ⟨((claim_C6 9 1 (Or.inl rfl)).1 (by omega)).trans (by decide),
    (claim_C6 11 1 (Or.inl rfl)).2.1 (by omega)⟩

/-- C9: for every integer delta, `mudarMesAtual` sets the state to
mes + delta exactly when that sum lies in 9, 10, 11, and otherwise
leaves it unchanged; in particular +2 from October (9) jumps straight to
December (11). -/
theorem claim_C9 (mes delta : Int) :
    ((mes + delta = 9 ∨ mes + delta = 10 ∨ mes + delta = 11) →
      mudarMesAtual mes delta = mes + delta) ∧
    (¬(mes + delta = 9 ∨ mes + delta = 10 ∨ mes + delta = 11) →
      mudarMesAtual mes delta = mes) ∧
    mudarMesAtual 9 2 = 11 := by
  refine ⟨?_, ?_, by decide⟩
  · intro h
    have hc : MESES_PERMITIDOS.contains (mes + delta) = true := by
      simp only [MESES_PERMITIDOS, List.contains, List.elem_eq_mem, List.mem_cons,
        List.not_mem_nil, or_false, decide_eq_true_eq]
      tauto
    simp only [mudarMesAtual]
    rw [if_pos hc]
  · intro h
    have hc : mes + delta ∉ MESES_PERMITIDOS := by
      simp only [MESES_PERMITIDOS, List.mem_cons, List.not_mem_nil, or_false]
      tauto
    simp only [mudarMesAtual]
    rw [if_neg (by simpa using hc)]

/-- Witness for C9: a move by +5 from 9 leaves the state at 9, and +2
from 9 lands on 11. -/
theorem claim_C9_witness : mudarMesAtual 9 5 = 9 ∧ mudarMesAtual 9 2 = 11 :=
  ⟨(claim_C9 9 5).2.1 (by omega), (claim_C9 9 2).2.2⟩

/-- C7: the day detail selects exactly the stored appointments whose
data field equals the requested date, presents them sorted by the index
of their hora within the fixed slot list, and shows the empty-state
output exactly when no appointment matches. -/
theorem claim_C7 (lista : List Agendamento) (dataISO : String) :
    (detalhesDoDia lista dataISO).Perm (lista.filter fun x => x.data == dataISO) ∧
    (detalhesDoDia lista dataISO).Sorted ordemDeHorario ∧
    (mostrarDetalhesDoDia lista dataISO = SaidaDoDia.semAgendamentos ↔
      (lista.filter fun x => x.data == dataISO) = []) ∧
    ((lista.filter fun x => x.data == dataISO) ≠ [] →
      mostrarDetalhesDoDia lista dataISO =
        SaidaDoDia.tabela ((detalhesDoDia lista dataISO).map
          fun item => (item.hora, item.nome, item.servico))) := by
  have hperm : (detalhesDoDia lista dataISO).Perm
      (lista.filter fun x => x.data == dataISO) :=
    List.perm_insertionSort ordemDeHorario _
  have hvazio : detalhesDoDia lista dataISO = [] ↔
      (lista.filter fun x => x.data == dataISO) = [] := by
    constructor
    · intro h
      have := hperm.symm
      rw [h] at this
      exact this.eq_nil
    · intro h
      have := hperm
      rw [h] at this
      exact this.eq_nil
  refine ⟨hperm, List.sorted_insertionSort ordemDeHorario _, ?_, ?_⟩
  · unfold mostrarDetalhesDoDia
    rw [← hvazio]
    cases hd : detalhesDoDia lista dataISO <;> simp
  · intro h
    have hne : detalhesDoDia lista dataISO ≠ [] := fun he => h (hvazio.mp he)
    simp only [mostrarDetalhesDoDia]
    rw [if_neg (by simpa [List.isEmpty_iff] using hne)]

/-- Witness for C7: one stored appointment on 2025-10-06 yields the
table output for that date. -/
theorem claim_C7_witness :
    mostrarDetalhesDoDia [Agendamento.mk "Ana" "111" "Corte" "2025-10-06" "09:00"]
      "2025-10-06" =
    SaidaDoDia.tabela ((detalhesDoDia
      [Agendamento.mk "Ana" "111" "Corte" "2025-10-06" "09:00"] "2025-10-06").map
        fun item => (item.hora, item.nome, item.servico)) :=
  (claim_C7 [Agendamento.mk "Ana" "111" "Corte" "2025-10-06" "09:00"]
    "2025-10-06").2.2.2 (by decide)

/-- C10: in the day detail, an appointment whose hora is not a member of
the fixed slot list (indexOf gives -1) is never preceded by one whose
hora is in the list, so it is ordered before every in-list appointment;
and such appointments are kept, not rejected. -/
theorem claim_C10 (lista : List Agendamento) (dataISO : String) :
    (detalhesDoDia lista dataISO).Pairwise
      (fun a b => a.hora ∈ LISTA_DE_HORARIOS_FIXOS → b.hora ∈ LISTA_DE_HORARIOS_FIXOS) ∧
    ∀ a ∈ lista, a.data = dataISO → a ∈ detalhesDoDia lista dataISO := by
  constructor
  · have hs : (detalhesDoDia lista dataISO).Sorted ordemDeHorario :=
      List.sorted_insertionSort ordemDeHorario _
    refine List.Pairwise.imp ?_ hs
    intro a b hab hmem
    rw [← jsIndexOf_nonneg_iff] at hmem ⊢
    unfold ordemDeHorario chaveDoHorario at hab
    omega
  · intro a ha hdata
    unfold detalhesDoDia
    rw [List.mem_insertionSort, List.mem_filter]
    exact ⟨ha, by simp [hdata]⟩

/-- Witness for C10: an appointment at the out-of-list slot 99:99 on
2025-10-06 is kept in the day detail. -/
theorem claim_C10_witness :
    Agendamento.mk "B" "2" "y" "2025-10-06" "99:99" ∈
      detalhesDoDia [Agendamento.mk "A" "1" "x" "2025-10-06" "10:00",
        Agendamento.mk "B" "2" "y" "2025-10-06" "99:99"] "2025-10-06" :=
  (claim_C10 [Agendamento.mk "A" "1" "x" "2025-10-06" "10:00",
    Agendamento.mk "B" "2" "y" "2025-10-06" "99:99"] "2025-10-06").2
    (Agendamento.mk "B" "2" "y" "2025-10-06" "99:99") (by simp) rfl

/-- Counterexample to C3 as stated: with the well-formed JSON text "0"
stored, `pegarListaDeAgendamentos` returns the number 0 — not a sequence
of appointments — because `JSON.parse` does not raise on it and the
function never checks the parsed value's shape. -/
theorem claim_C3_counterexample :
    pegarListaDeAgendamentos (some "0") = Json.num 0 ∧
    (pegarListaDeAgendamentos (some "0")).ehArr = false :=
  ⟨rfl, rfl⟩

/-- C3 amended: the load operation is total (never raises); it returns
the empty array when the stored value is absent, empty, or not parseable
as JSON, and otherwise returns the parsed JSON value unchanged — which
is a sequence of appointments only when the stored text is a JSON array
of such objects. -/
theorem claim_C3 (armazenado : Option String) :
    (jsonParse (valorOuPadrao armazenado) = none →
      pegarListaDeAgendamentos armazenado = Json.arr []) ∧
    (∀ j, jsonParse (valorOuPadrao armazenado) = some j →
      pegarListaDeAgendamentos armazenado = j) ∧
    (armazenado = none → pegarListaDeAgendamentos armazenado = Json.arr []) ∧
    (armazenado = some "" → pegarListaDeAgendamentos armazenado = Json.arr []) := by
  refine ⟨?_, ?_, ?_, ?_⟩
  · intro h
    unfold pegarListaDeAgendamentos
    rw [h]
  · intro j h
    unfold pegarListaDeAgendamentos
    rw [h]
  · rintro rfl
    rfl
  · rintro rfl
    rfl

/-- Witness for C3: an absent value loads as the empty array, and so does
a stored text that is not valid JSON. -/
theorem claim_C3_witness :
    pegarListaDeAgendamentos none = Json.arr [] ∧
    pegarListaDeAgendamentos (some "nonsense") = Json.arr [] :=
  ⟨(claim_C3 none).2.2.1 rfl, (claim_C3 (some "nonsense")).1 rfl⟩

/-- Counterexample to C8 as stated: with the stored text "[ ]" (an array
written with interior whitespace) save(load()) rewrites the store to
"[]", changing the persisted content. -/
theorem claim_C8_counterexample :
    salvarAposCarregar (some "[ ]") ≠ some "[ ]" := by
  have h : salvarAposCarregar (some "[ ]") = some "[]" := rfl
  rw [h]
  decide

/-- C8 amended: save(load()) leaves the persisted content unchanged
whenever that content is itself a serialization produced by save — in
particular for every serialized appointment list whose fields contain no
quote, backslash or control character — and serialization is lossless
for the field set: parsing a serialized list returns exactly the encoded
list. On other stored contents (for example non-canonical whitespace, or
an absent key) save(load()) may rewrite the store. -/
theorem claim_C8 (l : List Agendamento) (h : ∀ a ∈ l, camposSimples a) :
    jsonParse (jsonStringify (codificarLista l)) = some (codificarLista l) ∧
    salvarAposCarregar (some (jsonStringify (codificarLista l))) =
      some (jsonStringify (codificarLista l)) := by
  have hrt := jsonParse_stringify_codificar l h
  refine ⟨hrt, ?_⟩
  have hX : jsonStringify (codificarLista l) =
      String.mk ('[' :: (stringifyElems (l.map codificarAgendamento) ++ [']'])) := by
    unfold jsonStringify codificarLista
    simp [stringifyJson]
  have hne : (jsonStringify (codificarLista l) == "") = false := by
    rw [hX, beq_eq_false_iff_ne]
    intro he
    exact absurd (congrArg String.data he) (by simp)
  unfold salvarAposCarregar salvarListaDeAgendamentos pegarListaDeAgendamentos
    valorOuPadrao
  simp only [hne, Bool.false_eq_true, if_false]
  rw [hrt]

/-- Witness for C8: the round trip at a one-appointment list with plain
fields. -/
theorem claim_C8_witness :
    jsonParse (jsonStringify (codificarLista
        [Agendamento.mk "Ana" "111" "Corte" "2025-10-06" "09:00"])) =
      some (codificarLista [Agendamento.mk "Ana" "111" "Corte" "2025-10-06" "09:00"]) ∧
    salvarAposCarregar (some (jsonStringify (codificarLista
        [Agendamento.mk "Ana" "111" "Corte" "2025-10-06" "09:00"]))) =
      some (jsonStringify (codificarLista
        [Agendamento.mk "Ana" "111" "Corte" "2025-10-06" "09:00"])) :=
  claim_C8 [Agendamento.mk "Ana" "111" "Corte" "2025-10-06" "09:00"] (by decide)

end Barbearia
